import Mathlib

/-!
Verification of the Tower of Hanoi game engine.

The development shallowly embeds the two core source components:

* `GameState` (from `src/js/models/GameState.js`): the puzzle state machine.
  JS arrays-of-disks become `List Nat` with the TOP of a peg at the END of the
  list (JS `push`/`pop` work at the end).  The fixed three-element `towers`
  array becomes a function `Fin 3 → List Nat`; dynamic (possibly out-of-range)
  indexing, which in JS yields `undefined`, is modelled by the `Option`-valued
  getter `GameState.getTower`.  Methods that in JS may write to `this` are
  embedded as state transformers returning `result × GameState`; observer
  methods contain no writes, which the transformer form makes explicit.

* `Solver` (the unnamed source file): the recursive solution generator and the
  `setInterval`-based playback.  The JS recursion `generateSolution` has base
  case `n === 1` and recurses on `n - 1`, so it does not terminate for
  `n ≤ 0`; it is therefore embedded with an explicit fuel parameter, `none`
  meaning the computation did not finish within the given recursion budget.
  The timed playback is embedded as a small-step event semantics: a scheduler
  keeps the set of not-yet-cleared interval handles, `setInterval` allocates a
  fresh handle, `clearInterval` removes one, and a `tick` event for a handle
  can fire exactly when that handle is still active (the JS runtime guarantee
  that a cleared interval never fires again).  The external `onMove` /
  `onComplete` callbacks are modelled by an append-only log.
-/

/-- A puzzle state, mirroring the fields of the JS `GameState` class.
Each tower lists its disks bottom-to-top (JS `push` appends at the top end). -/
structure GameState where
  towers : Fin 3 → List Nat
  numDisks : Nat
  moveCount : Nat
  selectedTowerIndex : Option Nat
  autoSolving : Bool

namespace GameState

/-- Dynamic indexing `this.towers[i]`: `none` models the JS `undefined`
obtained for an out-of-range index. -/
def getTower (s : GameState) (i : Nat) : Option (List Nat) :=
  if h : i < 3 then some (s.towers ⟨i, h⟩) else none

/-- Total variant of `getTower`, defaulting to the empty list; used to state
lemmas without `Option` noise. -/
def getTowerD (s : GameState) (i : Nat) : List Nat :=
  (s.getTower i).getD []

/-- Writing `this.towers[i] = t`; a silent no-op out of range (the valid-move
check performed before every write guarantees the index is in range). -/
def setTower (s : GameState) (i : Nat) (t : List Nat) : GameState :=
  if h : i < 3 then { s with towers := Function.update s.towers ⟨i, h⟩ t } else s

/-- The initial tower `[n, n-1, …, 1]` built by the `init` loop
`for (size = numDisks; size >= 1; size--) towers[0].push(size)`. -/
def descDisks : Nat → List Nat
  | 0 => []
  | n + 1 => (n + 1) :: descDisks n

/-- `GameState.init(numDisks)`: clamps the requested count via
`Math.max(1, Math.min(15, numDisks))`, stacks all disks on tower 0 and resets
every other field. -/
def init (numDisks : Int) : GameState :=
  let n : Nat := (max 1 (min 15 numDisks)).toNat
  { towers := fun i => if i = 0 then descDisks n else []
    numDisks := n
    moveCount := 0
    selectedTowerIndex := none
    autoSolving := false }

/-- `getOptimalMoves()`: returns `2^numDisks - 1`.  The method performs no
writes, so the returned state is the input state. -/
def getOptimalMovesM (s : GameState) : Nat × GameState :=
  (2 ^ s.numDisks - 1, s)

/-- `isGameWon()`: `this.towers[2].length === this.numDisks`.  No writes. -/
def isGameWonM (s : GameState) : Bool × GameState :=
  ((s.towers 2).length == s.numDisks, s)

/-- Result component of `isGameWonM`. -/
def isGameWon (s : GameState) : Bool :=
  (s.isGameWonM).1

/-- `getTopDisk(towerIndex)`: the JS body reads `tower.length` and so throws a
`TypeError` when the index is out of range (`tower` is `undefined`); this is
the `Except.error` case.  Otherwise it returns the last element or
`undefined` (`none`).  No writes. -/
def getTopDiskM (s : GameState) (towerIndex : Nat) :
    Except Unit (Option Nat) × GameState :=
  match s.getTower towerIndex with
  | none => (Except.error (), s)
  | some tower => (Except.ok tower.getLast?, s)

/-- `canMove(sourceIndex, targetIndex)`: invalid when an index is out of range
(`!sourceTower || !targetTower`), when the source tower is empty, or when the
target's top disk is strictly smaller than the moving disk
(`targetTopDisk !== undefined && targetTopDisk < movingDisk`).  Valid
otherwise.  The JS error strings are dropped; only the `valid` flag is kept.
No writes.  `movingDisk` is `sourceTower[sourceTower.length - 1]`, defined
because the empty case was already excluded; `getD 0` is never used. -/
def canMoveM (s : GameState) (sourceIndex targetIndex : Nat) :
    Bool × GameState :=
  match s.getTower sourceIndex, s.getTower targetIndex with
  | some sourceTower, some targetTower =>
    if sourceTower.length = 0 then (false, s)
    else
      let movingDisk := sourceTower.getLast?.getD 0
      match targetTower.getLast? with
      | some targetTopDisk =>
        if targetTopDisk < movingDisk then (false, s) else (true, s)
      | none => (true, s)
  | _, _ => (false, s)

/-- Result component of `canMoveM`. -/
def canMove (s : GameState) (sourceIndex targetIndex : Nat) : Bool :=
  (s.canMoveM sourceIndex targetIndex).1

/-- `performMove(sourceIndex, targetIndex)`: re-validates via `canMove`; when
invalid returns `false` without touching the state; when valid pops the top
disk of the source tower, pushes it on the target tower, increments
`moveCount` and returns `true`.  The target tower is read AFTER the pop so
that the JS aliasing of `towers[i].pop(); towers[i].push(disk)` when
`sourceIndex = targetIndex` is reproduced exactly.  `disk` is the popped
element, defined because validation ensures the source tower is nonempty. -/
def performMove (s : GameState) (sourceIndex targetIndex : Nat) :
    Bool × GameState :=
  if s.canMove sourceIndex targetIndex then
    let disk := (s.getTowerD sourceIndex).getLast?.getD 0
    let s1 := s.setTower sourceIndex (s.getTowerD sourceIndex).dropLast
    let s2 := s1.setTower targetIndex (s1.getTowerD targetIndex ++ [disk])
    (true, { s2 with moveCount := s2.moveCount + 1 })
  else (false, s)

end GameState

/-- `Solver.generateSolution(n, from, to, aux, moves)` with an explicit fuel
bound on the recursion depth: `none` means the recursion did not reach a base
case within `fuel` nested calls (in JS: a stack overflow, since the only base
case is `n === 1` and the recursion argument is `n - 1`).  The pushes into the
shared `moves` array appear here as list concatenation in execution order:
first recursive call, then `[from, to]`, then second recursive call. -/
def generateSolutionFuel : Nat → Int → Nat → Nat → Nat → Option (List (Nat × Nat))
  | 0, _, _, _, _ => none
  | fuel + 1, n, f, t, a =>
    if n = 1 then some [(f, t)]
    else
      match generateSolutionFuel fuel (n - 1) f a t with
      | none => none
      | some m1 =>
        match generateSolutionFuel fuel (n - 1) a t f with
        | none => none
        | some m2 => some (m1 ++ [(f, t)] ++ m2)

/-- `Solver.prepareSolution(numDisks)`: generate from tower 0 to tower 2 via
tower 1 (fuel-bounded as in `generateSolutionFuel`). -/
def prepareSolutionFuel (fuel : Nat) (numDisks : Int) :
    Option (List (Nat × Nat)) :=
  generateSolutionFuel fuel numDisks 0 2 1

/-- The canonical recursive Hanoi move sequence, total over `Nat`; proved
below to agree with `generateSolutionFuel` whenever `1 ≤ n ≤ fuel`. -/
def hanoiMoves : Nat → Nat → Nat → Nat → List (Nat × Nat)
  | 0, _, _, _ => []
  | n + 1, f, t, a => hanoiMoves n f a t ++ [(f, t)] ++ hanoiMoves n a t f

/-- Strict execution of a move list: apply `performMove` in order, failing
(`none`) as soon as a move is rejected by `canMove`. -/
def runSolution : GameState → List (Nat × Nat) → Option GameState
  | s, [] => some s
  | s, (f, t) :: ms =>
    if s.canMove f t then runSolution (s.performMove f t).2 ms else none

/-- Unchecked execution of a move list: apply `performMove` in order, keeping
the unchanged state whenever a move is rejected. -/
def applyMoves (s : GameState) (ms : List (Nat × Nat)) : GameState :=
  ms.foldl (fun s m => (s.performMove m.1 m.2).2) s

/-- All disks on the board, tower 0 first, each tower bottom-to-top. -/
def GameState.allDisksList (s : GameState) : List Nat :=
  s.towers 0 ++ s.towers 1 ++ s.towers 2

/-- The state invariant: every tower is strictly decreasing bottom-to-top and
the disks on the board are exactly `1, …, numDisks`, once each. -/
def GameState.disksInv (s : GameState) : Prop :=
  (∀ i : Fin 3, (s.towers i).Pairwise (· > ·)) ∧
    s.allDisksList.Perm (List.range' 1 s.numDisks)

/-- The `Solver` instance fields: the prepared move list, the playback cursor
and the `this.timer` field holding the current interval handle (`none` models
the JS `null`). -/
structure Solver where
  moves : List (Nat × Nat)
  currentMoveIndex : Nat
  timer : Option Nat

/-- The browser timer registry: the next fresh interval handle and the
handles of intervals that have been created by `setInterval` and not yet
cancelled by `clearInterval`. -/
structure IntervalSched where
  nextHandle : Nat
  active : List Nat

/-- Log of the external callbacks fired so far, each tagged with the handle
of the interval whose callback fired it: `onMoveCalls` records
`(handle, from, to)`, `onCompleteCalls` records the handle. -/
structure CallbackLog where
  onMoveCalls : List (Nat × Nat × Nat)
  onCompleteCalls : List Nat

/-- A whole playback world: solver instance, timer registry, callback log. -/
structure SolverWorld where
  solver : Solver
  sched : IntervalSched
  log : CallbackLog

/-- `Solver.getNextMove()`: `null` when the cursor is past the end, otherwise
the move at the cursor, with the cursor post-incremented. -/
def Solver.getNextMove (s : Solver) : Option (Nat × Nat) × Solver :=
  if s.currentMoveIndex ≥ s.moves.length then (none, s)
  else (s.moves[s.currentMoveIndex]?,
    { s with currentMoveIndex := s.currentMoveIndex + 1 })

/-- `Solver.stop()`: if `this.timer` is set, `clearInterval(this.timer)`
(remove that handle from the active set) and null the field; then always
reset `moves` and `currentMoveIndex`. -/
def Solver.stop (s : Solver) (sched : IntervalSched) :
    Solver × IntervalSched :=
  let sched2 := match s.timer with
    | some h => { sched with active := sched.active.erase h }
    | none => sched
  ({ s with timer := none, moves := [], currentMoveIndex := 0 }, sched2)

/-- `Solver.startAutoPlay(...)`: `this.timer = setInterval(...)` — a fresh
handle is allocated and becomes active, and is stored in `this.timer`,
silently overwriting (and thus leaking, not cancelling) any handle already
stored there. -/
def startAutoPlayWorld (w : SolverWorld) : SolverWorld :=
  let h := w.sched.nextHandle
  { solver := { w.solver with timer := some h }
    sched := { nextHandle := h + 1, active := w.sched.active ++ [h] }
    log := w.log }

/-- The body of the `setInterval` callback created by `startAutoPlay`, fired
on behalf of interval `h`: take the next move; when exhausted, call
`this.stop()` and then `onComplete()`; otherwise report the move through
`onMove`. -/
def tickBodyWorld (h : Nat) (w : SolverWorld) : SolverWorld :=
  match w.solver.getNextMove with
  | (none, s1) =>
    let r := s1.stop w.sched
    { solver := r.1, sched := r.2,
      log := { w.log with onCompleteCalls := w.log.onCompleteCalls ++ [h] } }
  | (some (f, t), s1) =>
    { solver := s1, sched := w.sched,
      log := { w.log with onMoveCalls := w.log.onMoveCalls ++ [(h, f, t)] } }

/-- External events of a playback run: a `startAutoPlay` call, the firing of
the interval callback for handle `h`, and a `stop` call. -/
inductive SolverEvent where
  | start
  | tick (h : Nat)
  | stop
deriving DecidableEq

/-- One step of the playback semantics.  A `tick h` event fires only while
`h` is active — the JS runtime guarantee that an interval cancelled by
`clearInterval` never fires again, which makes cancellation immediate. -/
def stepWorld (w : SolverWorld) : SolverEvent → SolverWorld
  | SolverEvent.start => startAutoPlayWorld w
  | SolverEvent.tick h => if h ∈ w.sched.active then tickBodyWorld h w else w
  | SolverEvent.stop =>
    let r := w.solver.stop w.sched
    { solver := r.1, sched := r.2, log := w.log }

/-- Run a sequence of playback events. -/
def runWorld (w : SolverWorld) (es : List SolverEvent) : SolverWorld :=
  es.foldl stepWorld w

/-- A world as `stop()` leaves it: no timer, no active interval, solver
state reset. -/
def StoppedWorld (w : SolverWorld) : Prop :=
  w.solver.timer = none ∧ w.solver.moves = [] ∧
    w.solver.currentMoveIndex = 0 ∧ w.sched.active = []

/-- Well-formed single-session world: the active intervals are exactly the
one referenced by `this.timer` (no leaked interval). -/
def WFWorld (w : SolverWorld) : Prop :=
  w.sched.active = w.solver.timer.toList

/-- Event lists describing one playback session: no further `startAutoPlay`
call occurs. -/
def NoStartEvent (es : List SolverEvent) : Prop :=
  SolverEvent.start ∉ es

namespace GameState

theorem getTower_eq_some (s : GameState) (i : Nat) (h : i < 3) :
    s.getTower i = some (s.towers ⟨i, h⟩) := by
  simp [getTower, h]

theorem getTower_eq_none (s : GameState) (i : Nat) (h : 3 ≤ i) :
    s.getTower i = none := by
  simp [getTower]; omega

theorem getTowerD_eq (s : GameState) (i : Nat) (h : i < 3) :
    s.getTowerD i = s.towers ⟨i, h⟩ := by
  simp [getTowerD, getTower_eq_some s i h]

theorem getTowerD_of_ge (s : GameState) (i : Nat) (h : 3 ≤ i) :
    s.getTowerD i = [] := by
  simp [getTowerD, getTower_eq_none s i h]

@[simp] theorem setTower_numDisks (s : GameState) (i : Nat) (t : List Nat) :
    (s.setTower i t).numDisks = s.numDisks := by
  unfold setTower; split <;> rfl

@[simp] theorem setTower_moveCount (s : GameState) (i : Nat) (t : List Nat) :
    (s.setTower i t).moveCount = s.moveCount := by
  unfold setTower; split <;> rfl

@[simp] theorem setTower_selectedTowerIndex (s : GameState) (i : Nat) (t : List Nat) :
    (s.setTower i t).selectedTowerIndex = s.selectedTowerIndex := by
  unfold setTower; split <;> rfl

@[simp] theorem setTower_autoSolving (s : GameState) (i : Nat) (t : List Nat) :
    (s.setTower i t).autoSolving = s.autoSolving := by
  unfold setTower; split <;> rfl

theorem setTower_towers (s : GameState) (i : Nat) (h : i < 3) (t : List Nat) :
    (s.setTower i t).towers = Function.update s.towers ⟨i, h⟩ t := by
  simp [setTower, h]

@[simp] theorem getTowerD_setTower_self (s : GameState) (i : Nat) (h : i < 3)
    (t : List Nat) : (s.setTower i t).getTowerD i = t := by
  simp [getTowerD_eq _ i h, setTower_towers s i h]

theorem getTowerD_setTower_ne (s : GameState) {i j : Nat} (hne : i ≠ j)
    (t : List Nat) : (s.setTower i t).getTowerD j = s.getTowerD j := by
  by_cases hi : i < 3
  · by_cases hj : j < 3
    · rw [getTowerD_eq _ j hj, getTowerD_eq _ j hj, setTower_towers s i hi,
        Function.update_noteq (by simp [Fin.ext_iff]; omega)]
    · rw [getTowerD_of_ge _ j (by omega), getTowerD_of_ge _ j (by omega)]
  · simp [setTower, hi]

@[simp] theorem getTowerD_withMoveCount (s : GameState) (m : Nat) (j : Nat) :
    ({ s with moveCount := m } : GameState).getTowerD j = s.getTowerD j := rfl

theorem canMove_true_iff (s : GameState) (f t : Nat) :
    s.canMove f t = true ↔
      f < 3 ∧ t < 3 ∧ s.getTowerD f ≠ [] ∧
      ∀ dt, (s.getTowerD t).getLast? = some dt →
        (s.getTowerD f).getLast?.getD 0 ≤ dt := by
  by_cases hf : f < 3
  · by_cases ht : t < 3
    · rw [canMove, canMoveM, getTower_eq_some s f hf, getTower_eq_some s t ht,
        getTowerD_eq s f hf, getTowerD_eq s t ht]
      set src := s.towers ⟨f, hf⟩ with hsrc
      set tgt := s.towers ⟨t, ht⟩ with htgt
      by_cases hlen : src.length = 0
      · simp [hlen, List.length_eq_zero.mp hlen, hf, ht]
      · have hne : src ≠ [] := by
          intro h; exact hlen (by simp [h])
        cases hlast : tgt.getLast? with
        | none => simp [hlen, hlast, hf, ht, hne]
        | some dt =>
          simp only [hlen, if_false, hlast]
          by_cases hlt : dt < src.getLast?.getD 0
          · simp [hlt, hf, ht, hne]
          · simp [hlt, hf, ht, hne]; omega
    · have h0 : s.getTower t = none := getTower_eq_none s t (by omega)
      rw [canMove, canMoveM, h0]
      constructor
      · intro h; cases hsf : s.getTower f <;> rw [hsf] at h <;> simp_all
      · intro h; omega
  · simp [canMove, canMoveM, getTower_eq_none s f (by omega)]
    omega

theorem canMove_false_of_empty (s : GameState) (f t : Nat)
    (h : s.getTowerD f = []) : s.canMove f t = false := by
  cases h2 : s.canMove f t with
  | false => rfl
  | true => exact absurd h ((canMove_true_iff s f t).mp h2).2.2.1

theorem performMove_of_invalid (s : GameState) (f t : Nat)
    (h : s.canMove f t = false) : s.performMove f t = (false, s) := by
  simp [performMove, h]

/-- Effect of a valid move between two distinct towers: the source loses its
last disk, the target gains it on top, every other tower and every other
field except `moveCount` is unchanged. -/
theorem performMove_valid_ne (s : GameState) (f t : Nat) (hne : f ≠ t)
    (hc : s.canMove f t = true) :
    (s.performMove f t).1 = true ∧
    (s.performMove f t).2.getTowerD f = (s.getTowerD f).dropLast ∧
    (s.performMove f t).2.getTowerD t
      = s.getTowerD t ++ [(s.getTowerD f).getLast?.getD 0] ∧
    (∀ j, j ≠ f → j ≠ t → (s.performMove f t).2.getTowerD j = s.getTowerD j) ∧
    (s.performMove f t).2.numDisks = s.numDisks ∧
    (s.performMove f t).2.moveCount = s.moveCount + 1 ∧
    (s.performMove f t).2.selectedTowerIndex = s.selectedTowerIndex ∧
    (s.performMove f t).2.autoSolving = s.autoSolving := by
  obtain ⟨hf, ht, -, -⟩ := (canMove_true_iff s f t).mp hc
  simp only [performMove, hc, if_true]
  refine ⟨trivial, ?_, ?_, ?_, by simp, by simp, by simp, by simp⟩
  · rw [getTowerD_withMoveCount, getTowerD_setTower_ne _ (Ne.symm hne),
      getTowerD_setTower_self _ f hf]
  · rw [getTowerD_withMoveCount, getTowerD_setTower_self _ t ht,
      getTowerD_setTower_ne _ hne]
  · intro j hjf hjt
    rw [getTowerD_withMoveCount, getTowerD_setTower_ne _ (Ne.symm hjt),
      getTowerD_setTower_ne _ (Ne.symm hjf)]

/-- Effect of a valid self-move `performMove(i, i)`: because the JS `pop` and
`push` act on the same array, the towers are left exactly as they were; only
`moveCount` is incremented. -/
theorem performMove_valid_self (s : GameState) (f : Nat)
    (hc : s.canMove f f = true) :
    (s.performMove f f).1 = true ∧
    (s.performMove f f).2.towers = s.towers ∧
    (s.performMove f f).2.numDisks = s.numDisks ∧
    (s.performMove f f).2.moveCount = s.moveCount + 1 ∧
    (s.performMove f f).2.selectedTowerIndex = s.selectedTowerIndex ∧
    (s.performMove f f).2.autoSolving = s.autoSolving := by
  obtain ⟨hf, -, hne, -⟩ := (canMove_true_iff s f f).mp hc
  simp only [performMove, hc, if_true]
  refine ⟨trivial, ?_, by simp, by simp, by simp, by simp⟩
  show ((s.setTower f (s.getTowerD f).dropLast).setTower f
      ((s.setTower f (s.getTowerD f).dropLast).getTowerD f
        ++ [(s.getTowerD f).getLast?.getD 0])).towers = s.towers
  rw [getTowerD_setTower_self _ f hf, List.getLast?_eq_getLast _ hne,
    Option.getD_some, List.dropLast_append_getLast hne,
    setTower_towers _ f hf, setTower_towers _ f hf, Function.update_idem,
    getTowerD_eq s f hf, Function.update_eq_self]

theorem performMove_fst_of_valid (s : GameState) (f t : Nat)
    (hc : s.canMove f t = true) : (s.performMove f t).1 = true := by
  simp [performMove, hc]

end GameState

theorem mem_of_getLast?_eq {l : List Nat} {a : Nat} (h : l.getLast? = some a) :
    a ∈ l := by
  have := List.dropLast_append_getLast? a h
  rw [← this]; simp

theorem runSolution_append (s : GameState) (l1 l2 : List (Nat × Nat)) :
    runSolution s (l1 ++ l2)
      = (runSolution s l1).bind (fun s2 => runSolution s2 l2) := by
  induction l1 generalizing s with
  | nil => rfl
  | cons m ms ih =>
    obtain ⟨f, t⟩ := m
    simp only [List.cons_append, runSolution]
    by_cases hc : s.canMove f t
    · simp [hc, ih]
    · simp [hc]

theorem hanoiMoves_length (n f t a : Nat) :
    (hanoiMoves n f t a).length = 2 ^ n - 1 := by
  induction n generalizing f t a with
  | zero => rfl
  | succ n ih =>
    have h2 : 2 ^ (n + 1) = 2 ^ n * 2 := Nat.pow_succ 2 n
    have h3 : 1 ≤ 2 ^ n := Nat.one_le_two_pow
    simp [hanoiMoves, ih]
    omega

theorem generateSolutionFuel_eq_hanoiMoves (n : Nat) :
    ∀ fuel, n + 1 ≤ fuel → ∀ f t a,
      generateSolutionFuel fuel ((n + 1 : Nat) : Int) f t a
        = some (hanoiMoves (n + 1) f t a) := by
  induction n with
  | zero =>
    intro fuel hfuel f t a
    obtain ⟨u, rfl⟩ : ∃ u, fuel = u + 1 := ⟨fuel - 1, by omega⟩
    simp [generateSolutionFuel, hanoiMoves]
  | succ n ih =>
    intro fuel hfuel f t a
    obtain ⟨u, rfl⟩ : ∃ u, fuel = u + 1 := ⟨fuel - 1, by omega⟩
    have hne : ¬ ((n + 1 + 1 : Nat) : Int) = 1 := by push_cast; omega
    have harith : ((n + 1 + 1 : Nat) : Int) - 1 = ((n + 1 : Nat) : Int) := by
      push_cast; ring
    simp only [generateSolutionFuel, if_neg hne, harith, ih u (by omega)]
    simp [hanoiMoves]

theorem generateSolutionFuel_none_of_nonpos :
    ∀ (fuel : Nat) (n : Int), n ≤ 0 → ∀ f t a,
      generateSolutionFuel fuel n f t a = none := by
  intro fuel
  induction fuel with
  | zero => intro n _ f t a; rfl
  | succ fuel ih =>
    intro n hn f t a
    simp only [generateSolutionFuel]
    rw [if_neg (by omega), ih (n - 1) (by omega)]

/-- Core correctness of the recursive Hanoi sequence: if tower `f` carries a
strictly decreasing segment `T` of length `n` on top of a base `Bf`, and
every disk of `T` is smaller than every disk of `Bf` and of towers `t` and
`a`, then running `hanoiMoves n f t a` validates every move and transfers
`T` onto tower `t`, leaving tower `a` as it was, in exactly `2 ^ n - 1`
moves. -/
theorem runSolution_hanoiMoves (n : Nat) :
    ∀ (s : GameState) (f t a : Nat), f < 3 → t < 3 → a < 3 →
    f ≠ t → f ≠ a → t ≠ a →
    ∀ (Bf T : List Nat),
    s.getTowerD f = Bf ++ T →
    T.length = n →
    T.Pairwise (· > ·) →
    (∀ x ∈ T, ∀ y ∈ Bf, x < y) →
    (∀ x ∈ T, ∀ y ∈ s.getTowerD t, x < y) →
    (∀ x ∈ T, ∀ y ∈ s.getTowerD a, x < y) →
    ∃ s3, runSolution s (hanoiMoves n f t a) = some s3 ∧
      s3.getTowerD f = Bf ∧
      s3.getTowerD t = s.getTowerD t ++ T ∧
      s3.getTowerD a = s.getTowerD a ∧
      s3.numDisks = s.numDisks ∧
      s3.moveCount = s.moveCount + (2 ^ n - 1) ∧
      s3.selectedTowerIndex = s.selectedTowerIndex ∧
      s3.autoSolving = s.autoSolving := by
  induction n with
  | zero =>
    intro s f t a hf ht ha hft hfa hta Bf T hsrc hlen hpw hTBf hTt hTa
    rw [List.length_eq_zero] at hlen
    subst hlen
    exact ⟨s, rfl, by simpa using hsrc, by simp, rfl, rfl, by simp, rfl, rfl⟩
  | succ n ih =>
    intro s f t a hf ht ha hft hfa hta Bf T hsrc hlen hpw hTBf hTt hTa
    obtain ⟨x, T2, rfl⟩ : ∃ x T2, T = x :: T2 := by
      cases T with
      | nil => simp at hlen
      | cons x T2 => exact ⟨x, T2, rfl⟩
    rw [List.pairwise_cons] at hpw
    obtain ⟨hxT2, hpw2⟩ := hpw
    have hlen2 : T2.length = n := by simpa using hlen
    -- Phase 1: move the n smaller disks from f to a (auxiliary t).
    obtain ⟨s1, hrun1, hs1f, hs1a, hs1t, hs1nd, hs1mc, hs1sel, hs1auto⟩ :=
      ih s f a t hf ha ht hfa hft (Ne.symm hta) (Bf ++ [x]) T2
        (by rw [hsrc]; simp)
        hlen2 hpw2
        (by
          intro p hp y hy
          rcases List.mem_append.mp hy with hy | hy
          · exact hTBf p (by simp [hp]) y hy
          · have : y = x := by simpa using hy
            subst this; exact hxT2 p hp)
        (fun p hp y hy => hTa p (by simp [hp]) y hy)
        (fun p hp y hy => hTt p (by simp [hp]) y hy)
    -- Phase 2: move disk x from f to t.
    have hcan : s1.canMove f t = true := by
      apply (GameState.canMove_true_iff s1 f t).mpr
      refine ⟨hf, ht, by simp [hs1f], ?_⟩
      intro dt hdt
      rw [hs1f, List.getLast?_concat, Option.getD_some]
      rw [hs1t] at hdt
      exact Nat.le_of_lt (hTt x (by simp) dt (mem_of_getLast?_eq hdt))
    obtain ⟨hpm1, hs2f, hs2t, hs2other, hs2nd, hs2mc, hs2sel, hs2auto⟩ :=
      GameState.performMove_valid_ne s1 f t hft hcan
    set s2 := (s1.performMove f t).2 with hs2def
    have hs2fB : s2.getTowerD f = Bf := by
      rw [hs2f, hs1f, List.dropLast_concat]
    have hs2tx : s2.getTowerD t = s.getTowerD t ++ [x] := by
      rw [hs2t, hs1t, hs1f, List.getLast?_concat, Option.getD_some]
    -- Phase 3: move the n smaller disks from a to t (auxiliary f).
    obtain ⟨s3, hrun3, hs3a, hs3t, hs3f, hs3nd, hs3mc, hs3sel, hs3auto⟩ :=
      ih s2 a t f ha ht hf (Ne.symm hta) (Ne.symm hfa) (Ne.symm hft)
        (s.getTowerD a) T2
        (by rw [hs2other a (Ne.symm hfa) (Ne.symm hta), hs1a])
        hlen2 hpw2
        (fun p hp y hy => hTa p (by simp [hp]) y hy)
        (by
          intro p hp y hy
          rw [hs2tx] at hy
          rcases List.mem_append.mp hy with hy | hy
          · exact hTt p (by simp [hp]) y hy
          · have hyx : y = x := by simpa using hy
            subst hyx; exact hxT2 p hp)
        (by
          intro p hp y hy
          rw [hs2fB] at hy
          exact hTBf p (by simp [hp]) y hy)
    refine ⟨s3, ?_, ?_, ?_, ?_, ?_, ?_, ?_, ?_⟩
    · show runSolution s (hanoiMoves (n + 1) f t a) = some s3
      have hsplit : hanoiMoves (n + 1) f t a
          = hanoiMoves n f a t ++ ((f, t) :: hanoiMoves n a t f) := by
        simp [hanoiMoves]
      rw [hsplit, runSolution_append, hrun1]
      show runSolution s1 ((f, t) :: hanoiMoves n a t f) = some s3
      rw [runSolution, if_pos hcan]
      exact hrun3
    · rw [hs3f, hs2fB]
    · rw [hs3t, hs2tx, List.append_assoc]; rfl
    · exact hs3a
    · rw [hs3nd, hs2nd, hs1nd]
    · rw [hs3mc, hs2mc, hs1mc]
      have h2 : 2 ^ (n + 1) = 2 ^ n * 2 := Nat.pow_succ 2 n
      have h3 : 1 ≤ 2 ^ n := Nat.one_le_two_pow
      omega
    · rw [hs3sel, hs2sel, hs1sel]
    · rw [hs3auto, hs2auto, hs1auto]

@[simp] theorem descDisks_length (n : Nat) :
    (GameState.descDisks n).length = n := by
  induction n with
  | zero => rfl
  | succ n ih => simp [GameState.descDisks, ih]

theorem mem_descDisks {x n : Nat} :
    x ∈ GameState.descDisks n ↔ 1 ≤ x ∧ x ≤ n := by
  induction n with
  | zero => simp [GameState.descDisks]; omega
  | succ n ih =>
    simp [GameState.descDisks, ih]
    omega

theorem descDisks_pairwise (n : Nat) :
    (GameState.descDisks n).Pairwise (· > ·) := by
  induction n with
  | zero => exact List.Pairwise.nil
  | succ n ih =>
    rw [GameState.descDisks, List.pairwise_cons]
    exact ⟨fun y hy => by have := mem_descDisks.mp hy; omega, ih⟩

theorem descDisks_perm (n : Nat) :
    (GameState.descDisks n).Perm (List.range' 1 n) := by
  induction n with
  | zero => rfl
  | succ n ih =>
    rw [GameState.descDisks, List.range'_concat]
    have h1 : 1 + 1 * n = n + 1 := by ring
    rw [h1]
    exact (ih.cons _).trans
      (by simpa using
        (@List.perm_append_comm Nat [n + 1] (List.range' 1 n)))

namespace GameState

theorem allDisksList_getTowerD (s : GameState) :
    s.allDisksList = s.getTowerD 0 ++ s.getTowerD 1 ++ s.getTowerD 2 := by
  rw [allDisksList, getTowerD_eq s 0 (by omega), getTowerD_eq s 1 (by omega),
    getTowerD_eq s 2 (by omega)]
  rfl

/-- In a strictly decreasing list the last element is the minimum. -/
theorem getLast_le_of_pairwise_gt :
    ∀ {l : List Nat}, l.Pairwise (· > ·) →
      ∀ {y : Nat}, y ∈ l → ∀ {z : Nat}, l.getLast? = some z → z ≤ y := by
  intro l
  induction l with
  | nil => intro _ y hy; cases hy
  | cons b l2 ih =>
    intro hpw y hy z hz
    rw [List.pairwise_cons] at hpw
    cases l2 with
    | nil =>
      simp at hz hy
      omega
    | cons c l3 =>
      have hz2 : (c :: l3).getLast? = some z := by
        simpa [List.getLast?_cons_cons] using hz
      rcases List.mem_cons.mp hy with rfl | hy
      · exact Nat.le_of_lt (hpw.1 z (mem_of_getLast?_eq hz2))
      · exact ih hpw.2 hy hz2

/-- Disks sitting on different towers are distinct (from the global
permutation invariant). -/
theorem distinct_towers {s : GameState} (hnd : s.allDisksList.Nodup)
    {i j : Fin 3} (hij : i ≠ j) {x : Nat}
    (hi : x ∈ s.towers i) (hj : x ∈ s.towers j) : False := by
  rw [allDisksList, List.nodup_append, List.nodup_append] at hnd
  fin_cases i <;> fin_cases j <;> simp_all [List.disjoint_left]

theorem disksInv_init (d : Int) : (GameState.init d).disksInv := by
  constructor
  · intro i
    fin_cases i
    · simpa [GameState.init] using descDisks_pairwise ((max 1 (min 15 d)).toNat)
    · simp [GameState.init]
    · simp [GameState.init]
  · simp only [GameState.allDisksList, GameState.init]
    simpa using descDisks_perm ((max 1 (min 15 d)).toNat)

theorem disksInv_performMove (s : GameState) (f t : Nat) (h : s.disksInv) :
    (s.performMove f t).2.disksInv := by
  cases hc : s.canMove f t with
  | false => rw [performMove_of_invalid s f t hc]; exact h
  | true =>
    obtain ⟨hf, ht, hsne, hcond⟩ := (canMove_true_iff s f t).mp hc
    by_cases hft : f = t
    · subst hft
      obtain ⟨-, htw, hnd2, -, -, -⟩ := performMove_valid_self s f hc
      refine ⟨fun i => by rw [htw]; exact h.1 i, ?_⟩
      have hall : (s.performMove f f).2.allDisksList = s.allDisksList := by
        simp only [allDisksList, htw]
      rw [hall, hnd2]
      exact h.2
    · obtain ⟨-, hs2f, hs2t, hs2other, hs2nd, -, -, -⟩ :=
        performMove_valid_ne s f t hft hc
      set s2 := (s.performMove f t).2 with hs2
      set B := (s.getTowerD f).dropLast with hB
      have hTf : s.getTowerD f = s.towers ⟨f, hf⟩ := getTowerD_eq s f hf
      have hTt : s.getTowerD t = s.towers ⟨t, ht⟩ := getTowerD_eq s t ht
      set d := (s.getTowerD f).getLast hsne with hdd
      have hd : (s.getTowerD f).getLast? = some d :=
        List.getLast?_eq_getLast _ hsne
      have hgetD : (s.getTowerD f).getLast?.getD 0 = d := by rw [hd]; rfl
      rw [hgetD] at hs2t
      have hsplit : s.getTowerD f = B ++ [d] :=
        (List.dropLast_append_getLast? d hd).symm
      have hdmem : d ∈ s.towers ⟨f, hf⟩ := by
        rw [← hTf]; exact mem_of_getLast?_eq hd
      have hnodup : s.allDisksList.Nodup :=
        (h.2.nodup_iff).mpr (List.nodup_range' 1 s.numDisks)
      have hpwf : (s.getTowerD f).Pairwise (· > ·) := by
        rw [hTf]; exact h.1 _
      have hpwt : (s.getTowerD t).Pairwise (· > ·) := by
        rw [hTt]; exact h.1 _
      have hgt : ∀ y ∈ s.getTowerD t, d < y := by
        intro y hy
        have hne2 : s.getTowerD t ≠ [] := by
          intro h0; rw [h0] at hy; cases hy
        have hz : (s.getTowerD t).getLast? =
            some ((s.getTowerD t).getLast hne2) :=
          List.getLast?_eq_getLast _ hne2
        have hdz : d ≤ (s.getTowerD t).getLast hne2 := by
          have := hcond _ hz; rwa [hgetD] at this
        have hzy : (s.getTowerD t).getLast hne2 ≤ y :=
          getLast_le_of_pairwise_gt hpwt hy hz
        have hdy : d ≠ y := by
          intro hdy
          refine @distinct_towers _ hnodup ⟨f, hf⟩ ⟨t, ht⟩
            (by simp [Fin.ext_iff]; exact hft) _ hdmem ?_
          rw [hTt, ← hdy] at hy
          exact hy
        omega
      refine ⟨?_, ?_⟩
      · intro i
        have h1 : s2.towers i = s2.getTowerD i.val :=
          (getTowerD_eq s2 i.val i.isLt).symm
        by_cases hif : (i : Nat) = f
        · rw [h1, hif, hs2f]
          exact hpwf.sublist (List.dropLast_sublist _)
        · by_cases hit : (i : Nat) = t
          · rw [h1, hit, hs2t]
            rw [List.pairwise_append]
            refine ⟨hpwt, List.pairwise_singleton _ _, ?_⟩
            intro y hy x hx
            have hx2 : x = d := by simpa using hx
            subst hx2
            exact hgt y hy
          · rw [h1, hs2other i.val hif hit]
            rw [getTowerD_eq s i.val i.isLt]
            exact h.1 _
      · have hperm : s2.allDisksList.Perm s.allDisksList := by
          rw [← Multiset.coe_eq_coe, allDisksList_getTowerD s2,
            allDisksList_getTowerD s]
          have hf3 : f = 0 ∨ f = 1 ∨ f = 2 := by omega
          have ht3 : t = 0 ∨ t = 1 ∨ t = 2 := by omega
          rcases hf3 with rfl | rfl | rfl <;> rcases ht3 with rfl | rfl | rfl <;>
            first
            | exact absurd rfl hft
            | (rw [hs2f, hs2t, hsplit]
               first
               | rw [hs2other 0 (by omega) (by omega)]
               | rw [hs2other 1 (by omega) (by omega)]
               | rw [hs2other 2 (by omega) (by omega)]
               simp only [← Multiset.coe_add]
               abel)
        rw [show s2.numDisks = s.numDisks from hs2nd]
        exact hperm.trans h.2

end GameState

theorem disksInv_applyMoves (s : GameState) (ms : List (Nat × Nat))
    (h : s.disksInv) : (applyMoves s ms).disksInv := by
  induction ms generalizing s with
  | nil => exact h
  | cons m ms ih =>
    exact ih _ (GameState.disksInv_performMove s m.1 m.2 h)

theorem getNextMove_cases (s : Solver) :
    s.getNextMove = (none, s) ∨
    ∃ fr tg, s.getNextMove = (some (fr, tg),
      { s with currentMoveIndex := s.currentMoveIndex + 1 }) := by
  unfold Solver.getNextMove
  split
  · exact Or.inl rfl
  · right
    rename_i hidx
    cases hm : s.moves[s.currentMoveIndex]? with
    | none =>
      have := List.getElem?_eq_none_iff.mp hm
      omega
    | some m => exact ⟨m.1, m.2, rfl⟩

theorem runWorld_cons (w : SolverWorld) (e : SolverEvent)
    (es : List SolverEvent) :
    runWorld w (e :: es) = runWorld (stepWorld w e) es := rfl

/-- After a `stop()`, no event other than a fresh `startAutoPlay` can change
anything: ticks of cleared intervals never fire, `stop` is idempotent, no
callback is invoked.  (The callback log is part of the world, so equality of
worlds includes that no `onMove` or `onComplete` fired.) -/
theorem runWorld_stopped :
    ∀ es, NoStartEvent es → ∀ w, StoppedWorld w → runWorld w es = w := by
  intro es
  induction es with
  | nil => intro _ w _; rfl
  | cons e es ih =>
    intro hes w hw
    have hes2 : NoStartEvent es := fun hmem => hes (List.mem_cons_of_mem _ hmem)
    obtain ⟨ht, hm, hi, ha⟩ := hw
    have hstep : stepWorld w e = w := by
      cases e with
      | start => exact absurd (List.mem_cons_self _ _) hes
      | tick h2 => simp [stepWorld, ha]
      | stop =>
        cases w with
        | mk sol sched log =>
          cases sol with
          | mk mv ci tm => simp_all [stepWorld, Solver.stop]
    rw [runWorld_cons, hstep]
    exact ih hes2 w ⟨ht, hm, hi, ha⟩

/-- A `stop` event leaves a stopped world whose log is untouched, provided
the world had no leaked interval. -/
theorem stepWorld_stop_stops (w : SolverWorld) (hw : WFWorld w) :
    StoppedWorld (stepWorld w SolverEvent.stop) ∧
      (stepWorld w SolverEvent.stop).log = w.log := by
  rw [WFWorld] at hw
  cases htm : w.solver.timer with
  | none =>
    rw [htm] at hw
    refine ⟨⟨rfl, rfl, rfl, ?_⟩, rfl⟩
    simp [stepWorld, Solver.stop, htm, hw]
  | some h0 =>
    rw [htm] at hw
    refine ⟨⟨rfl, rfl, rfl, ?_⟩, rfl⟩
    simp [stepWorld, Solver.stop, htm, hw]

/-- Within one playback session (no further `startAutoPlay`), a well-formed
world fires `onComplete` at most once. -/
theorem runWorld_onComplete_le :
    ∀ es, NoStartEvent es → ∀ w, WFWorld w →
      (runWorld w es).log.onCompleteCalls.length
        ≤ w.log.onCompleteCalls.length + 1 := by
  intro es
  induction es with
  | nil => intro _ w _; exact Nat.le_succ _
  | cons e es ih =>
    intro hes w hw
    have hes2 : NoStartEvent es := fun hmem => hes (List.mem_cons_of_mem _ hmem)
    rw [runWorld_cons]
    cases e with
    | start => exact absurd (List.mem_cons_self _ _) hes
    | stop =>
      obtain ⟨hst, hlog⟩ := stepWorld_stop_stops w hw
      rw [runWorld_stopped es hes2 _ hst, hlog]
      exact Nat.le_succ _
    | tick h2 =>
      by_cases hmem : h2 ∈ w.sched.active
      · rw [WFWorld] at hw
        cases htm : w.solver.timer with
        | none =>
          rw [htm] at hw
          rw [hw] at hmem
          cases hmem
        | some h0 =>
          rw [htm] at hw
          have hstep : stepWorld w (SolverEvent.tick h2) = tickBodyWorld h2 w := by
            simp [stepWorld, hmem]
          rw [hstep]
          rcases getNextMove_cases w.solver with hnm | ⟨fr, tg, hnm⟩
          · have htb : tickBodyWorld h2 w =
                { solver := (w.solver.stop w.sched).1,
                  sched := (w.solver.stop w.sched).2,
                  log := { w.log with
                    onCompleteCalls := w.log.onCompleteCalls ++ [h2] } } := by
              rw [tickBodyWorld, hnm]
            have hst2 : StoppedWorld (tickBodyWorld h2 w) := by
              rw [htb]
              refine ⟨rfl, rfl, rfl, ?_⟩
              simp [Solver.stop, htm, hw]
            rw [runWorld_stopped es hes2 _ hst2, htb]
            simp
          · have htb : tickBodyWorld h2 w =
                { solver := { w.solver with
                    currentMoveIndex := w.solver.currentMoveIndex + 1 },
                  sched := w.sched,
                  log := { w.log with
                    onMoveCalls := w.log.onMoveCalls ++ [(h2, fr, tg)] } } := by
              rw [tickBodyWorld, hnm]
            rw [htb]
            have hwf2 : WFWorld
                { solver := { w.solver with
                    currentMoveIndex := w.solver.currentMoveIndex + 1 },
                  sched := w.sched,
                  log := { w.log with
                    onMoveCalls := w.log.onMoveCalls ++ [(h2, fr, tg)] } } := by
              rw [WFWorld]
              simpa [htm] using hw
            exact ih hes2 _ hwf2
      · have hstep : stepWorld w (SolverEvent.tick h2) = w := by
          simp [stepWorld, hmem]
        rw [hstep]
        exact ih hes2 w hw

/-- C3: `canMove` returns invalid exactly when an index is out of the range
`{0,1,2}`, or the source tower is empty, or the destination's top disk is
strictly smaller than the source's top disk; in every other case it is valid
— in particular a move onto an empty destination is always valid, and a move
onto a strictly larger disk is always valid (those cases fall outside the
three disjuncts). -/
theorem c3_canMove_invalid_iff (s : GameState) (f t : Nat) :
    s.canMove f t = false ↔
      3 ≤ f ∨ 3 ≤ t ∨ s.getTowerD f = [] ∨
      ∃ ds dt, (s.getTowerD f).getLast? = some ds ∧
        (s.getTowerD t).getLast? = some dt ∧ dt < ds := by
  rw [← Bool.not_eq_true, GameState.canMove_true_iff]
  constructor
  · intro h
    by_cases hf : f < 3
    · by_cases ht : t < 3
      · by_cases hemp : s.getTowerD f = []
        · exact Or.inr (Or.inr (Or.inl hemp))
        · right; right; right
          have hcond : ¬ ∀ dt, (s.getTowerD t).getLast? = some dt →
              (s.getTowerD f).getLast?.getD 0 ≤ dt := by
            intro hcond; exact h ⟨hf, ht, hemp, hcond⟩
          push_neg at hcond
          obtain ⟨dt, hdt, hlt⟩ := hcond
          have hds : (s.getTowerD f).getLast?
              = some ((s.getTowerD f).getLast hemp) :=
            List.getLast?_eq_getLast _ hemp
          refine ⟨_, dt, hds, hdt, ?_⟩
          rw [hds] at hlt
          simpa using hlt
      · exact Or.inr (Or.inl (by omega))
    · exact Or.inl (by omega)
  · rintro (h | h | h | ⟨ds, dt, hds, hdt, hlt⟩) ⟨hf, ht, hne, hcond⟩
    · omega
    · omega
    · exact hne h
    · have := hcond dt hdt
      rw [hds] at this
      simp at this
      omega

/-- C4: `performMove` re-validates through `canMove`; on an invalid move it
returns `false` and the whole state — towers, `moveCount`, selection,
auto-play flag — is exactly the input state (the embedding is total, so no
exception is ever thrown); on a valid move it returns `true`, moves exactly
the top disk of the source onto the destination, increments `moveCount` by
one and leaves every other field and tower unchanged (for a valid self-move,
which the JS array aliasing makes a no-op on the towers, the towers are
unchanged). -/
theorem c4_performMove_spec (s : GameState) (f t : Nat) :
    (s.canMove f t = false → s.performMove f t = (false, s)) ∧
    (s.canMove f t = true →
      (s.performMove f t).1 = true ∧
      (s.performMove f t).2.moveCount = s.moveCount + 1 ∧
      (s.performMove f t).2.numDisks = s.numDisks ∧
      (s.performMove f t).2.selectedTowerIndex = s.selectedTowerIndex ∧
      (s.performMove f t).2.autoSolving = s.autoSolving ∧
      (f ≠ t →
        (s.performMove f t).2.getTowerD f = (s.getTowerD f).dropLast ∧
        (s.performMove f t).2.getTowerD t
          = s.getTowerD t ++ [(s.getTowerD f).getLast?.getD 0] ∧
        ∀ j, j ≠ f → j ≠ t →
          (s.performMove f t).2.getTowerD j = s.getTowerD j) ∧
      (f = t → (s.performMove f t).2.towers = s.towers)) := by
  refine ⟨fun hc => GameState.performMove_of_invalid s f t hc, fun hc => ?_⟩
  by_cases hft : f = t
  · subst hft
    obtain ⟨h1, htw, hnd, hmc, hsel, hauto⟩ :=
      GameState.performMove_valid_self s f hc
    exact ⟨h1, hmc, hnd, hsel, hauto, fun hne => absurd rfl hne, fun _ => htw⟩
  · obtain ⟨h1, hfe, hte, hother, hnd, hmc, hsel, hauto⟩ :=
      GameState.performMove_valid_ne s f t hft hc
    exact ⟨h1, hmc, hnd, hsel, hauto, fun _ => ⟨hfe, hte, hother⟩,
      fun heq => absurd heq hft⟩

/-- C4 witness: both branches of `c4_performMove_spec` at concrete inputs —
the move 2→0 from the initial 3-disk state is invalid and leaves the state
untouched; the move 0→2 is valid, succeeds and bumps `moveCount`. -/
theorem c4_witness :
    (GameState.init 3).performMove 2 0 = (false, GameState.init 3) ∧
    ((GameState.init 3).performMove 0 2).1 = true ∧
    ((GameState.init 3).performMove 0 2).2.moveCount
      = (GameState.init 3).moveCount + 1 :=
  ⟨(c4_performMove_spec (GameState.init 3) 2 0).1 (by decide),
   ((c4_performMove_spec (GameState.init 3) 0 2).2 (by decide)).1,
   ((c4_performMove_spec (GameState.init 3) 0 2).2 (by decide)).2.1⟩

/-- C6: `init(d)` clamps the disk count into `[1, 15]` (0 becomes 1, 20
becomes 15) without ever rejecting the input (the embedding is total), puts
the full descending stack `[n, …, 1]` (largest at the bottom, strictly
decreasing, `n` disks) on tower 0, empties towers 1 and 2, zeroes the move
counter, clears the selection and clears the auto-play flag. -/
theorem c6_init_spec (d : Int) :
    1 ≤ (GameState.init d).numDisks ∧
    (GameState.init d).numDisks ≤ 15 ∧
    ((GameState.init d).numDisks : Int) = max 1 (min 15 d) ∧
    (GameState.init 0).numDisks = 1 ∧
    (GameState.init 20).numDisks = 15 ∧
    (GameState.init d).towers 0
      = GameState.descDisks (GameState.init d).numDisks ∧
    ((GameState.init d).towers 0).Pairwise (· > ·) ∧
    ((GameState.init d).towers 0).length = (GameState.init d).numDisks ∧
    (GameState.init d).towers 1 = [] ∧
    (GameState.init d).towers 2 = [] ∧
    (GameState.init d).moveCount = 0 ∧
    (GameState.init d).selectedTowerIndex = none ∧
    (GameState.init d).autoSolving = false := by
  refine ⟨?_, ?_, ?_, by decide, by decide, rfl, ?_, ?_, rfl, rfl, rfl, rfl, rfl⟩
  · show 1 ≤ (max 1 (min 15 d)).toNat
    omega
  · show (max 1 (min 15 d)).toNat ≤ 15
    omega
  · show (((max 1 (min 15 d)).toNat : Nat) : Int) = max 1 (min 15 d)
    omega
  · exact descDisks_pairwise _
  · exact descDisks_length _

/-- C7 counterexample: the claim asserts that in the state `[[3],[2],[1]]`
(reached from `init(3)` by the moves 0→2 and 0→1) the move 2→1 is invalid
and rejected.  In fact the source (tower 2) has top disk 1, the destination
(tower 1) has top disk 2, `targetTopDisk < movingDisk` is `2 < 1 = false`,
so `canMove(2,1)` is VALID and `performMove(2,1)` succeeds. -/
theorem c7_counterexample :
    ((((GameState.init 3).performMove 0 2).2.performMove 0 1).2.getTowerD 0
        = [3]) ∧
    ((((GameState.init 3).performMove 0 2).2.performMove 0 1).2.getTowerD 1
        = [2]) ∧
    ((((GameState.init 3).performMove 0 2).2.performMove 0 1).2.getTowerD 2
        = [1]) ∧
    ((((GameState.init 3).performMove 0 2).2.performMove 0 1).2.canMove 2 1
        = true) ∧
    ((((GameState.init 3).performMove 0 2).2.performMove 0 1).2.performMove 2 1
        ).1 = true := by
  exact ⟨by decide, by decide, by decide, by decide, by decide⟩

/-- C7 amended: in the state `[[3],[2],[1]]` the move 2→1 (disk 1 onto
disk 2) is VALID: it succeeds, yields towers `[[3],[2,1],[]]` and raises
`moveCount` to 3.  The move that validation rejects in this state is the
opposite one, 1→2 (disk 2 onto disk 1): it fails and changes nothing. -/
theorem c7_scenario_a :
    ((((GameState.init 3).performMove 0 2).2.performMove 0 1).2.canMove 2 1
        = true) ∧
    (((((GameState.init 3).performMove 0 2).2.performMove 0 1).2.performMove
        2 1).2.getTowerD 0 = [3]) ∧
    (((((GameState.init 3).performMove 0 2).2.performMove 0 1).2.performMove
        2 1).2.getTowerD 1 = [2, 1]) ∧
    (((((GameState.init 3).performMove 0 2).2.performMove 0 1).2.performMove
        2 1).2.getTowerD 2 = []) ∧
    (((((GameState.init 3).performMove 0 2).2.performMove 0 1).2.performMove
        2 1).2.moveCount = 3) ∧
    ((((GameState.init 3).performMove 0 2).2.performMove 0 1).2.canMove 1 2
        = false) ∧
    ((((GameState.init 3).performMove 0 2).2.performMove 0 1).2.performMove 1 2
      = (false,
        (((GameState.init 3).performMove 0 2).2.performMove 0 1).2)) := by
  exact ⟨by decide, by decide, by decide, by decide, by decide, by decide, rfl⟩

/-- C8 counterexample: the claim says `canMove(i,i)` is always invalid, but
on the freshly initialised 3-disk state `canMove(0,0)` is VALID — the JS
test `targetTopDisk < movingDisk` compares the tower's top disk with itself
and equality passes the check.  (Self-clicks never reach `canMove` in the
app: the controller treats them as deselection first.) -/
theorem c8_counterexample : (GameState.init 3).canMove 0 0 = true := by decide

/-- C8 amended: a self-move `(i, i)` is rejected by `canMove` exactly when
tower `i` is empty (or the index is out of range, in which case the
default-empty getter also returns `[]`); whenever tower `i` is nonempty,
`canMove(i, i)` returns VALID.  Self-moves are excluded at the controller
level (same-tower click = deselect), not by `canMove`. -/
theorem c8_selfMove_validity (s : GameState) (i : Nat) :
    s.canMove i i = false ↔ s.getTowerD i = [] := by
  constructor
  · intro h
    by_contra hne
    by_cases hi : i < 3
    · have hTrue : s.canMove i i = true := by
        apply (GameState.canMove_true_iff s i i).mpr
        refine ⟨hi, hi, hne, ?_⟩
        intro dt hdt
        rw [hdt]
        exact Nat.le_refl dt
      rw [hTrue] at h
      cases h
    · exact hne (GameState.getTowerD_of_ge s i (by omega))
  · intro h
    exact GameState.canMove_false_of_empty s i i h

/-- C10: the four observers `canMove`, `getTopDisk`, `isGameWon` and
`getOptimalMoves` perform no writes: embedded as state transformers, each
returns the input state unchanged for every state and every argument (for
`getTopDisk` including the out-of-range arguments on which it throws). -/
theorem c10_observers_pure (s : GameState) (i j p : Nat) :
    (s.canMoveM i j).2 = s ∧
    (s.getTopDiskM p).2 = s ∧
    s.isGameWonM.2 = s ∧
    s.getOptimalMovesM.2 = s := by
  refine ⟨?_, ?_, rfl, rfl⟩
  · unfold GameState.canMoveM
    cases s.getTower i with
    | none => rfl
    | some src =>
      cases s.getTower j with
      | none => rfl
      | some tgt =>
        by_cases h : src.length = 0
        · simp [h]
        · simp only [if_neg h]
          cases tgt.getLast? with
          | none => rfl
          | some dt => by_cases h2 : dt < src.getLast?.getD 0 <;> simp [h2]
  · unfold GameState.getTopDiskM
    cases s.getTower p <;> rfl

/-- C1: for every `diskCount` in `[1, 15]` and any recursion budget of at
least `diskCount` (the actual depth the JS recursion needs),
`prepareSolution(diskCount)` — generation from tower 0 to tower 2 via
tower 1 — returns a move list of length exactly `2 ^ diskCount - 1`, and
running that list with `performMove` from `init(diskCount)` validates every
single move (`runSolution` checks `canMove` before each step and would
return `none` on the first invalid one) and ends in a state where
`isGameWon()` is true. -/
theorem c1_solution_solves (d fuel : Nat) (h1 : 1 ≤ d) (h15 : d ≤ 15)
    (hfuel : d ≤ fuel) :
    ∃ ms s3, prepareSolutionFuel fuel (d : Int) = some ms ∧
      ms.length = 2 ^ d - 1 ∧
      runSolution (GameState.init (d : Int)) ms = some s3 ∧
      s3.isGameWon = true := by
  obtain ⟨n, rfl⟩ : ∃ n, d = n + 1 := ⟨d - 1, by omega⟩
  have hgen := generateSolutionFuel_eq_hanoiMoves n fuel (by omega) 0 2 1
  have hnum : (GameState.init ((n + 1 : Nat) : Int)).numDisks = n + 1 := by
    show (max 1 (min 15 ((n + 1 : Nat) : Int))).toNat = n + 1
    omega
  have htow0 : (GameState.init ((n + 1 : Nat) : Int)).getTowerD 0
      = GameState.descDisks (n + 1) := by
    rw [GameState.getTowerD_eq _ 0 (by omega)]
    show GameState.descDisks ((max 1 (min 15 ((n + 1 : Nat) : Int))).toNat) = _
    congr 1
  have htow1 : (GameState.init ((n + 1 : Nat) : Int)).getTowerD 1 = [] := by
    rw [GameState.getTowerD_eq _ 1 (by omega)]
    rfl
  have htow2 : (GameState.init ((n + 1 : Nat) : Int)).getTowerD 2 = [] := by
    rw [GameState.getTowerD_eq _ 2 (by omega)]
    rfl
  obtain ⟨s3, hrun, hs3f, hs3t, hs3a, hnd, hmc, -, -⟩ :=
    runSolution_hanoiMoves (n + 1) (GameState.init ((n + 1 : Nat) : Int))
      0 2 1 (by omega) (by omega) (by omega) (by omega) (by omega) (by omega)
      [] (GameState.descDisks (n + 1))
      (by simpa using htow0) (descDisks_length _) (descDisks_pairwise _)
      (by simp)
      (by intro x hx y hy; rw [htow2] at hy; cases hy)
      (by intro x hx y hy; rw [htow1] at hy; cases hy)
  refine ⟨hanoiMoves (n + 1) 0 2 1, s3, hgen, hanoiMoves_length _ 0 2 1,
    hrun, ?_⟩
  have hgd2 : s3.getTowerD 2 = GameState.descDisks (n + 1) := by
    rw [hs3t, htow2]
    simp
  have htw2 : s3.towers (2 : Fin 3) = GameState.descDisks (n + 1) := by
    have heq := GameState.getTowerD_eq s3 2 (by omega)
    rw [heq] at hgd2
    exact hgd2
  rw [GameState.isGameWon, GameState.isGameWonM]
  simp only [htw2, descDisks_length, hnd, hnum, beq_self_eq_true]

/-- C1 witness: the theorem at `diskCount = 3` with fuel 3. -/
theorem c1_witness :
    ∃ ms s3, prepareSolutionFuel 3 ((3 : Nat) : Int) = some ms ∧
      ms.length = 2 ^ 3 - 1 ∧
      runSolution (GameState.init ((3 : Nat) : Int)) ms = some s3 ∧
      s3.isGameWon = true :=
  c1_solution_solves 3 3 (by decide) (by decide) (by decide)

/-- C2: after `init(diskCount)` and ANY sequence of `performMove` calls
(valid or not), every tower is strictly decreasing from bottom (list head)
to top (list end), and the disks across the three towers are exactly a
permutation of `1, …, numDisks` (each size once); moreover, whenever a
`performMove` from the reached state succeeds, it relocates exactly the top
disk of the source tower onto the top of the destination, every other tower
unchanged (and a successful self-move leaves all towers unchanged). -/
theorem c2_state_invariants (d : Int) (ms : List (Nat × Nat)) (s : GameState)
    (hs : s = applyMoves (GameState.init d) ms) :
    (∀ i : Fin 3, (s.towers i).Pairwise (· > ·)) ∧
    s.allDisksList.Perm (List.range' 1 s.numDisks) ∧
    (∀ f t, (s.performMove f t).1 = true →
      (f ≠ t →
        (s.performMove f t).2.getTowerD f = (s.getTowerD f).dropLast ∧
        (s.performMove f t).2.getTowerD t
          = s.getTowerD t ++ [(s.getTowerD f).getLast?.getD 0] ∧
        ∀ j, j ≠ f → j ≠ t →
          (s.performMove f t).2.getTowerD j = s.getTowerD j) ∧
      (f = t → (s.performMove f t).2.towers = s.towers)) := by
  subst hs
  have hinv := disksInv_applyMoves (GameState.init d) ms (GameState.disksInv_init d)
  refine ⟨hinv.1, hinv.2, ?_⟩
  intro f t hpm
  set s := applyMoves (GameState.init d) ms
  have hc : s.canMove f t = true := by
    by_contra hcf
    rw [Bool.not_eq_true] at hcf
    rw [GameState.performMove_of_invalid _ _ _ hcf] at hpm
    simp at hpm
  constructor
  · intro hft
    obtain ⟨-, hfe, hte, hother, -, -, -, -⟩ :=
      GameState.performMove_valid_ne s f t hft hc
    exact ⟨hfe, hte, hother⟩
  · intro hft
    subst hft
    exact (GameState.performMove_valid_self s f hc).2.1

/-- C2 witness: the invariants and the top-disk relocation at `d = 3` after
the single (valid) move 0→2. -/
theorem c2_witness :
    ((GameState.init 3).performMove 0 2).2.getTowerD 0
        = ((GameState.init 3).getTowerD 0).dropLast ∧
    ((GameState.init 3).performMove 0 2).2.getTowerD 2
        = (GameState.init 3).getTowerD 2
          ++ [((GameState.init 3).getTowerD 0).getLast?.getD 0] ∧
    (GameState.init 3).allDisksList.Perm
      (List.range' 1 (GameState.init 3).numDisks) :=
  ⟨(((c2_state_invariants 3 [] (GameState.init 3) rfl).2.2 0 2
      (by decide)).1 (by decide)).1,
   (((c2_state_invariants 3 [] (GameState.init 3) rfl).2.2 0 2
      (by decide)).1 (by decide)).2.1,
   (c2_state_invariants 3 [] (GameState.init 3) rfl).2.1⟩

/-- C5 counterexample: the claim says `prepareSolution(0)` terminates with
an empty move list.  The recursion `generateSolution` has sole base case
`n === 1` and recurses on `n - 1`, so from `n = 0` it descends 0, -1, -2, …
forever: even with recursion budget 100 the fuel-bounded embedding has not
terminated (`none`), while budget `n` already suffices for every genuine
input `n ≥ 1` — e.g. 3 disks with budget 3 yield the full 7-move solution,
not an empty list. -/
theorem c5_counterexample :
    prepareSolutionFuel 100 0 = none ∧
    prepareSolutionFuel 3 3
      = some [(0, 2), (0, 1), (2, 1), (0, 2), (1, 0), (1, 2), (0, 2)] :=
  ⟨by decide, by decide⟩

/-- C5 amended: `prepareSolution(0)` does NOT terminate (in JS it overflows
the stack): for EVERY recursion budget the fuel-bounded embedding of
`generateSolution` fails to reach a base case, so no move list — empty or
otherwise — is ever produced. -/
theorem c5_zero_disks_diverges (fuel : Nat) :
    prepareSolutionFuel fuel 0 = none :=
  generateSolutionFuel_none_of_nonpos fuel 0 (by omega) 0 2 1

/-- C9 counterexample: under EVERY interleaving of `startAutoPlay`, ticks
and `stop` — as the claim demands — `onComplete` can fire twice for one
session.  `startAutoPlay` does `this.timer = setInterval(...)` without
clearing the previous interval, so a second `startAutoPlay` leaks the first
interval: `stop()` then only clears the second one.  Starting from a solver
holding a one-move plan, the trace start, start, stop, tick, tick (both
ticks of the leaked first interval, which `clearInterval` never saw) fires
`onComplete` twice on behalf of session 0 — both times AFTER `stop()` was
called. -/
theorem c9_counterexample :
    (runWorld
      { solver := { moves := [(0, 2)], currentMoveIndex := 0, timer := none }
        sched := { nextHandle := 0, active := [] }
        log := { onMoveCalls := [], onCompleteCalls := [] } }
      [SolverEvent.start, SolverEvent.start, SolverEvent.stop,
        SolverEvent.tick 0, SolverEvent.tick 0]).log.onCompleteCalls
      = [0, 0] := by decide

/-- C9 amended: restricted to runs without a second overlapping
`startAutoPlay` — which is how `GameController` uses the solver, always
calling `stop()` before starting — the claim holds: (1) from a stopped
world (`stop()` just ran and no interval is active) any start-free event
sequence changes nothing at all — no tick fires, no callback is invoked, no
state is mutated; (2) from any world whose only active interval is the one
in `this.timer`, a start-free event sequence fires `onComplete` at most
once. -/
theorem c9_playback_session (w : SolverWorld) (es : List SolverEvent) :
    (StoppedWorld w → NoStartEvent es → runWorld w es = w) ∧
    (WFWorld w → NoStartEvent es →
      (runWorld w es).log.onCompleteCalls.length
        ≤ w.log.onCompleteCalls.length + 1) :=
  ⟨fun hst hns => runWorld_stopped es hns w hst,
   fun hwf hns => runWorld_onComplete_le es hns w hwf⟩

/-- C9 witness: both parts of `c9_playback_session` at concrete inputs — a
stopped world absorbs a tick-then-stop sequence unchanged, and a running
single-interval world with a one-move plan fires `onComplete` at most once
over two ticks. -/
theorem c9_witness :
    runWorld
      { solver := { moves := [], currentMoveIndex := 0, timer := none }
        sched := { nextHandle := 5, active := [] }
        log := { onMoveCalls := [], onCompleteCalls := [] } }
      [SolverEvent.tick 0, SolverEvent.stop]
      = { solver := { moves := [], currentMoveIndex := 0, timer := none }
          sched := { nextHandle := 5, active := [] }
          log := { onMoveCalls := [], onCompleteCalls := [] } } ∧
    (runWorld
      { solver := { moves := [(0, 2)], currentMoveIndex := 0, timer := some 4 }
        sched := { nextHandle := 5, active := [4] }
        log := { onMoveCalls := [], onCompleteCalls := [] } }
      [SolverEvent.tick 4, SolverEvent.tick 4]).log.onCompleteCalls.length
      ≤ 0 + 1 :=
  ⟨(c9_playback_session _ _).1 ⟨rfl, rfl, rfl, rfl⟩ (by simp [NoStartEvent]),
   (c9_playback_session _ _).2 rfl (by simp [NoStartEvent])⟩

/-- C3 witness: the characterisation instantiated on the initial 3-disk
state for the move 1→0 (empty source, hence invalid). -/
theorem c3_witness :
    (GameState.init 3).canMove 1 0 = false ↔
      3 ≤ 1 ∨ 3 ≤ 0 ∨ (GameState.init 3).getTowerD 1 = [] ∨
      ∃ ds dt, ((GameState.init 3).getTowerD 1).getLast? = some ds ∧
        ((GameState.init 3).getTowerD 0).getLast? = some dt ∧ dt < ds :=
  c3_canMove_invalid_iff (GameState.init 3) 1 0

/-- C8 witness: the amended characterisation instantiated on the initial
3-disk state at tower 0. -/
theorem c8_witness :
    (GameState.init 3).canMove 0 0 = false ↔
      (GameState.init 3).getTowerD 0 = [] :=
  c8_selfMove_validity (GameState.init 3) 0

-- sanity: concrete evaluation of the embedding
example : (GameState.init 3).getTowerD 0 = [3, 2, 1] := by decide
example : (GameState.init 3).canMove 0 2 = true := by decide
example : ((GameState.init 3).performMove 0 2).2.getTowerD 2 = [1] := by decide
example : prepareSolutionFuel 4 2 = some [(0, 1), (0, 2), (1, 2)] := by decide
example : prepareSolutionFuel 10 0 = none := by decide
example : (GameState.init 1).canMove 0 0 = true := by decide
